import Mathlib

/-!
Verification of the quotto text-layout engine (`src/image-generator.ts`,
`src/constants.ts`, `src/types.ts`).

Embedding conventions:
* A JavaScript string is modelled as a `List Nat` of its UTF-16 code units
  (`String.prototype.split('')` yields one code unit per element, and
  `charCodeAt` reads code units, so this is the level the source works at).
* JavaScript numbers in the wrapping arithmetic are of the form
  `k * fontSize * 0.5` with `k` a natural number; all such values are exact
  dyadic rationals, so the running width is modelled *doubled*
  (`currentWidth2 = 2 * currentWidth`), which turns every comparison
  `currentWidth + charWidth * fontSize * 0.5 > maxWidth` into the exact
  natural-number comparison `currentWidth2 + charWidth * fontSize > 2 * maxWidth`.
* Fallible validation code returns `Except`.
* Fields of the configuration irrelevant to layout (colour palette, opacity,
  font family names) are omitted: they only flow into the generated SVG markup.
-/

namespace Quotto

/-- A JavaScript string, as the list of its UTF-16 code units. -/
abbrev Str := List Nat

/-! ## Width estimator (`getCharWidth`, `calculateTextWidth`) -/

/-- Full-width ranges tested by `getCharWidth` in `image-generator.ts`. -/
def isFullWidthCode (code : Nat) : Bool :=
  (0x3000 ≤ code && code ≤ 0x303f) ||   -- CJK punctuation
  (0x3040 ≤ code && code ≤ 0x309f) ||   -- Hiragana
  (0x30a0 ≤ code && code ≤ 0x30ff) ||   -- Katakana
  (0x4e00 ≤ code && code ≤ 0x9faf) ||   -- CJK unified ideographs
  (0xff00 ≤ code && code ≤ 0xffef)      -- Full-width ASCII

/-- `getCharWidth(char)`: looks only at `char.charCodeAt(0)`.
`charCodeAt(0)` of the empty string is `NaN`, for which every range test is
false, hence width 1. -/
def getCharWidth (char : Str) : Nat :=
  match char with
  | [] => 1
  | code :: _ => if isFullWidthCode code then 2 else 1

def isHighSurrogate (c : Nat) : Bool := 0xd800 ≤ c && c ≤ 0xdbff
def isLowSurrogate (c : Nat) : Bool := 0xdc00 ≤ c && c ≤ 0xdfff

/-- Iteration of `for (const c of s)` over a JS string: code units are grouped
into code points, a high surrogate immediately followed by a low surrogate
forming one (two-unit) character. -/
def codePoints : Str → List Str
  | [] => []
  | [c] => [[c]]
  | c :: c2 :: rest =>
    if isHighSurrogate c && isLowSurrogate c2 then (c :: [c2]) :: codePoints rest
    else (c :: []) :: codePoints (c2 :: rest)

/-! ## Configuration (`types.ts` `AppConfig`, `constants.ts` `DEFAULT_CONFIG`) -/

structure KinsokuConfig where
  lineStartProhibited : Str
  lineEndProhibited : Str
  deriving Repr, DecidableEq

structure MaxLinesConfig where
  quote : Nat
  title : Nat
  author : Nat
  deriving Repr, DecidableEq

structure TextConfig where
  maxLines : MaxLinesConfig
  kinsoku : KinsokuConfig
  deriving Repr, DecidableEq

structure FontSizeRange where
  base : Nat
  min : Nat
  deriving Repr, DecidableEq

structure FontSizesConfig where
  quote : FontSizeRange
  title : FontSizeRange
  author : FontSizeRange
  footer : Nat
  decorativeQuote : Nat
  deriving Repr, DecidableEq

structure FontConfig where
  sizes : FontSizesConfig
  deriving Repr, DecidableEq

structure CanvasConfig where
  width : Nat
  minHeight : Nat
  maxHeight : Nat
  margin : Nat
  footerHeight : Nat
  deriving Repr, DecidableEq

structure SectionGapConfig where
  afterQuote : Nat
  afterTitle : Nat
  deriving Repr, DecidableEq

structure LineGapConfig where
  quote : Nat
  title : Nat
  author : Nat
  deriving Repr, DecidableEq

structure SpacingConfig where
  startY : Nat
  sectionGap : SectionGapConfig
  lineGap : LineGapConfig
  deriving Repr, DecidableEq

structure AppConfig where
  canvas : CanvasConfig
  font : FontConfig
  text : TextConfig
  spacing : SpacingConfig
  deriving Repr, DecidableEq

/-- `DEFAULT_CONFIG` from `constants.ts` (layout-relevant fields).
The kinsoku strings are spelled out as code units:
`lineStartProhibited = "、。）」』！？、。．，）】｝・ゝゞ々ー～…"`,
`lineEndProhibited = "（「『（【｛"`. -/
def DEFAULT_CONFIG : AppConfig :=
  { canvas := { width := 600, minHeight := 400, maxHeight := 1200,
                margin := 60, footerHeight := 50 }
    font := { sizes := { quote := { base := 24, min := 16 }
                         title := { base := 18, min := 14 }
                         author := { base := 16, min := 12 }
                         footer := 12, decorativeQuote := 120 } }
    text := { maxLines := { quote := 15, title := 6, author := 3 }
              kinsoku :=
                { lineStartProhibited :=
                    [0x3001, 0x3002, 0xff09, 0x300d, 0x300f, 0xff01, 0xff1f,
                     0x3001, 0x3002, 0xff0e, 0xff0c, 0xff09, 0x3011, 0xff5d,
                     0x30fb, 0x309d, 0x309e, 0x3005, 0x30fc, 0xff5e, 0x2026]
                  lineEndProhibited :=
                    [0xff08, 0x300c, 0x300e, 0xff08, 0x3010, 0xff5b] } }
    spacing := { startY := 120
                 sectionGap := { afterQuote := 40, afterTitle := 20 }
                 lineGap := { quote := 8, title := 6, author := 4 } } }

/-- `getMaxTextWidth` from `constants.ts`. -/
def getMaxTextWidth (config : AppConfig) : Nat :=
  config.canvas.width - config.canvas.margin * 2

/-! ## Kinsoku line wrapper (`wrapText`) -/

/-- State of the per-paragraph scan loop of `wrapText`: the lines pushed to
`allLines` so far for this paragraph, `currentLine`, and the doubled running
width `currentWidth2 = 2 * currentWidth`. -/
structure WrapState where
  lines : List Str
  currentLine : Str
  currentWidth2 : Nat
  deriving Repr, DecidableEq

/-- The recomputation `for (const c of currentLine) currentWidth += getCharWidth(c) * fontSize * 0.5`
performed after a break (doubled; `for..of` iterates code points). -/
def recomputeWidth2 (line : Str) (fontSize : Nat) : Nat :=
  (codePoints line).foldl (fun w cp => w + getCharWidth cp * fontSize) 0

/-- The kinsoku adjustment performed at a break: the final `lineBreakPos` and
`moveToNext` computed from `currentLine` and the incoming `char`
(`image-generator.ts` lines 70-93). -/
def breakStep (config : AppConfig) (line : Str) (char : Nat) : Nat × Str :=
  let n := line.length
  -- 行末禁則: if the current line's last character is line-end prohibited,
  -- detach it to the next line.
  let s1 : Nat × Str :=
    if line.getD (n - 1) 0 ∈ config.text.kinsoku.lineEndProhibited then
      (n - 1, [line.getD (n - 1) 0])
    else (n, [])
  -- 行頭禁則: if the incoming character is line-start prohibited, also detach
  -- the character now at the end of the (possibly shortened) line.
  if char ∈ config.text.kinsoku.lineStartProhibited ∧ 0 < s1.1 then
    (s1.1 - 1, line.getD (s1.1 - 1) 0 :: s1.2)
  else s1

/-- One iteration of the character loop of `wrapText`
(`image-generator.ts` lines 65-111). -/
def wrapStep (config : AppConfig) (maxWidth fontSize : Nat)
    (s : WrapState) (char : Nat) : WrapState :=
  let charWidth := getCharWidth [char]
  let estimatedPixelWidth2 := charWidth * fontSize
  if s.currentWidth2 + estimatedPixelWidth2 > 2 * maxWidth ∧ s.currentLine ≠ [] then
    let br := breakStep config s.currentLine char
    let finalLine := s.currentLine.take br.1
    let nextLine := br.2 ++ [char]
    { lines := s.lines ++ if finalLine = [] then [] else [finalLine]
      currentLine := nextLine
      currentWidth2 := recomputeWidth2 nextLine fontSize }
  else
    { lines := s.lines
      currentLine := s.currentLine ++ [char]
      currentWidth2 := s.currentWidth2 + estimatedPixelWidth2 }

/-- Wrapping of a single (non-blank) paragraph: the inner loop of `wrapText`
plus the final flush of `currentLine` (lines 61-115). -/
def wrapParagraph (config : AppConfig) (maxWidth fontSize : Nat)
    (paragraph : Str) : List Str :=
  let s := paragraph.foldl (wrapStep config maxWidth fontSize) ⟨[], [], 0⟩
  s.lines ++ if s.currentLine = [] then [] else [s.currentLine]

/-- `text.split('\n')` (code unit 10). -/
def splitOnNewline : Str → List Str
  | [] => [[]]
  | c :: rest =>
    if c = 10 then [] :: splitOnNewline rest
    else
      match splitOnNewline rest with
      | [] => [[c]]
      | p :: ps => (c :: p) :: ps

/-- The code units treated as whitespace by `String.prototype.trim`. -/
def isJsWhitespace (c : Nat) : Bool :=
  c = 0x9 || c = 0xa || c = 0xb || c = 0xc || c = 0xd || c = 0x20 ||
  c = 0xa0 || c = 0x1680 || (0x2000 ≤ c && c ≤ 0x200a) || c = 0x2028 ||
  c = 0x2029 || c = 0x202f || c = 0x205f || c = 0x3000 || c = 0xfeff

/-- `s.trim()`. -/
def trimStr (s : Str) : Str :=
  ((s.dropWhile isJsWhitespace).reverse.dropWhile isJsWhitespace).reverse

/-- `wrapText(text, maxWidth, fontSize, config)` (lines 45-119): split into
paragraphs on newlines; a whitespace-only paragraph contributes one empty
line; every other paragraph is wrapped by the character loop. -/
def wrapText (text : Str) (maxWidth fontSize : Nat)
    (config : AppConfig := DEFAULT_CONFIG) : List Str :=
  (splitOnNewline text).foldl
    (fun allLines paragraph =>
      if trimStr paragraph = [] then allLines ++ [[]]
      else allLines ++ wrapParagraph config maxWidth fontSize paragraph)
    []

/-! ## Line truncator (`truncateTextToMaxLines`) -/

/-- `truncateTextToMaxLines(lines, maxLines)` (lines 121-138). -/
def truncateTextToMaxLines (lines : List Str) (maxLines : Nat) : List Str :=
  if lines.length ≤ maxLines then lines
  else
    let truncatedLines := lines.take (maxLines - 1)
    let lastLine := lines.getD (maxLines - 1) []
    let ellipsis : Str := [46, 46, 46]
    if lastLine.length > 10 then
      truncatedLines ++ [lastLine.take (lastLine.length - 3) ++ ellipsis]
    else
      truncatedLines ++ [lastLine ++ ellipsis]

/-! ## Layout planner (`calculateOptimalFontSizes`, `calculateRequiredHeight`,
     the height clamp of `generateQuoteImage`) -/

structure QuoteData where
  quote : Str
  title : Option Str := none
  author : Option Str := none
  deriving Repr, DecidableEq

/-- JavaScript truthiness of an optional string field (`quoteData.title ? _ : _`):
`undefined` and the empty string are falsy. -/
def truthy : Option Str → Bool
  | none => false
  | some s => !s.isEmpty

structure FontSizes where
  quoteFontSize : Nat
  titleFontSize : Nat
  authorFontSize : Nat
  deriving Repr, DecidableEq

/-- `calculateOptimalFontSizes` (lines 140-178). -/
def calculateOptimalFontSizes (quoteData : QuoteData)
    (config : AppConfig := DEFAULT_CONFIG) : FontSizes :=
  let quoteFontSize := config.font.sizes.quote.base
  let titleFontSize := config.font.sizes.title.base
  let authorFontSize := config.font.sizes.author.base
  let maxTextWidth := getMaxTextWidth config
  let quoteLines := wrapText quoteData.quote maxTextWidth quoteFontSize config
  let titleLines := if truthy quoteData.title then
      wrapText (quoteData.title.getD []) maxTextWidth titleFontSize config
    else []
  let authorLines := if truthy quoteData.author then
      wrapText (quoteData.author.getD []) maxTextWidth authorFontSize config
    else []
  if quoteLines.length > config.text.maxLines.quote ∨
      titleLines.length > config.text.maxLines.title ∨
      authorLines.length > config.text.maxLines.author then
    { quoteFontSize := config.font.sizes.quote.min
      titleFontSize := config.font.sizes.title.min
      authorFontSize := config.font.sizes.author.min }
  else
    { quoteFontSize, titleFontSize, authorFontSize }

/-- `calculateRequiredHeight` (lines 180-223), as the same running
accumulation of `totalHeight`. -/
def calculateRequiredHeight (quoteData : QuoteData) (fontSizes : FontSizes)
    (config : AppConfig := DEFAULT_CONFIG) : Nat :=
  let maxTextWidth := getMaxTextWidth config
  let h0 := config.spacing.startY
  let quoteLines := truncateTextToMaxLines
    (wrapText quoteData.quote maxTextWidth fontSizes.quoteFontSize config)
    config.text.maxLines.quote
  let h1 := h0 + quoteLines.length * (fontSizes.quoteFontSize + config.spacing.lineGap.quote)
    + config.spacing.sectionGap.afterQuote
  let h2 :=
    if truthy quoteData.title then
      let titleLines := truncateTextToMaxLines
        (wrapText (quoteData.title.getD []) maxTextWidth fontSizes.titleFontSize config)
        config.text.maxLines.title
      h1 + titleLines.length * (fontSizes.titleFontSize + config.spacing.lineGap.title)
        + config.spacing.sectionGap.afterTitle
    else h1
  let h3 :=
    if truthy quoteData.author then
      let authorLines := truncateTextToMaxLines
        (wrapText (quoteData.author.getD []) maxTextWidth fontSizes.authorFontSize config)
        config.text.maxLines.author
      h2 + authorLines.length * (fontSizes.authorFontSize + config.spacing.lineGap.author)
    else h2
  h3 + config.canvas.footerHeight

/-- The canvas height computed by `generateQuoteImage` (lines 413-421):
required height clamped into `[minHeight, maxHeight]`. -/
def canvasHeight (quoteData : QuoteData)
    (config : AppConfig := DEFAULT_CONFIG) : Nat :=
  let fontSizes := calculateOptimalFontSizes quoteData config
  let requiredHeight := calculateRequiredHeight quoteData fontSizes config
  max config.canvas.minHeight (min config.canvas.maxHeight requiredHeight)

/-! ## Validation (`createNonEmptyString`, `validateQuoteData`,
     `validateOutputPath`, and the error kinds raised by `generateQuoteImage`) -/

inductive ErrorCode where
  | EMPTY_QUOTE
  | INVALID_OUTPUT_PATH
  | FONT_SIZE_CALCULATION_FAILED
  | SVG_GENERATION_FAILED
  | FILE_WRITE_FAILED
  | INVALID_CONFIG
  deriving Repr, DecidableEq

/-- `createNonEmptyString` from `types.ts`. -/
def createNonEmptyString (value : Str) : Except String Str :=
  let trimmed := trimStr value
  if trimmed.length = 0 then .error "String cannot be empty"
  else .ok trimmed

/-- `validateQuoteData` (lines 362-372). -/
def validateQuoteData (quoteData : QuoteData) : Except String QuoteData :=
  match createNonEmptyString quoteData.quote with
  | .error e => .error ("Quote text is required: " ++ e)
  | .ok _ => .ok quoteData

/-- `validateOutputPath` (lines 374-385). `".png"` is `[46, 112, 110, 103]`. -/
def validateOutputPath (outputPath : Str) : Except String Str :=
  if outputPath = [] ∨ trimStr outputPath = [] then
    .error "Output path cannot be empty"
  else
    let trimmed := trimStr outputPath
    if ¬ List.isSuffixOf [46, 112, 110, 103] trimmed then
      .error "Output path must have .png extension"
    else .ok trimmed

/-- The validation phase of `generateQuoteImage` (lines 392-405): a failed
quote validation raises `EMPTY_QUOTE`, then a failed path validation raises
`INVALID_OUTPUT_PATH`. -/
def validateForGeneration (quoteData : QuoteData) (outputPath : Str) :
    Except ErrorCode (QuoteData × Str) :=
  match validateQuoteData quoteData with
  | .error _ => .error .EMPTY_QUOTE
  | .ok qd =>
    match validateOutputPath outputPath with
    | .error _ => .error .INVALID_OUTPUT_PATH
    | .ok p => .ok (qd, p)

/-! ## Derived measures used in the claims -/

/-- Doubled estimated pixel width of a line: the sum over its code units of
`charWidth * fontSize` (per-character widths per 4.1 of the spec, summed and
doubled so the claim `width ≤ maxWidth` reads `estWidth2 ≤ 2 * maxWidth`). -/
def estWidth2 (line : Str) (fontSize : Nat) : Nat :=
  (line.map (fun c => getCharWidth [c] * fontSize)).sum

/-- Concatenation of a list of lines (used to state content conservation). -/
def concatAll : List Str → Str
  | [] => []
  | l :: ls => l ++ concatAll ls

/-- Concatenation of per-paragraph line blocks into the flat output list. -/
def joinSegs : List (List Str) → List Str
  | [] => []
  | seg :: segs => seg ++ joinSegs segs

/-- The per-paragraph contribution to the `wrapText` output: one empty line
for a whitespace-only paragraph, the wrapped lines otherwise. -/
def paragraphLines (config : AppConfig) (maxWidth fontSize : Nat)
    (paragraph : Str) : List Str :=
  if trimStr paragraph = [] then [[]]
  else wrapParagraph config maxWidth fontSize paragraph

/-- Neither prohibition set contains a UTF-16 surrogate code unit (true of the
default configuration, whose prohibition characters are all BMP punctuation). -/
def SurrogateFreeSets (config : AppConfig) : Prop :=
  (∀ c ∈ config.text.kinsoku.lineStartProhibited,
      isHighSurrogate c = false ∧ isLowSurrogate c = false) ∧
  (∀ c ∈ config.text.kinsoku.lineEndProhibited,
      isHighSurrogate c = false ∧ isLowSurrogate c = false)

/-- No high surrogate is immediately followed by a low surrogate (so `for..of`
iteration visits the list one code unit at a time). -/
def NoSurrogatePair (l : Str) : Prop :=
  List.Chain' (fun a b => ¬(isHighSurrogate a = true ∧ isLowSurrogate b = true)) l

/-- Invariant of the paragraph scan underlying the width bound: the stored
running width is exact, and every stored line either fits or is a short
(≤ 3 characters) kinsoku carry. -/
def C1Inv (maxWidth fontSize : Nat) (s : WrapState) : Prop :=
  s.currentWidth2 = estWidth2 s.currentLine fontSize ∧
  (estWidth2 s.currentLine fontSize ≤ 2 * maxWidth ∨ s.currentLine.length ≤ 3) ∧
  ∀ L ∈ s.lines, estWidth2 L fontSize ≤ 2 * maxWidth ∨ L.length ≤ 3

/-- The line does not start with a line-start-prohibited character. -/
def headNotProhibited (config : AppConfig) (L : Str) : Prop :=
  ∀ c, L.head? = some c → c ∉ config.text.kinsoku.lineStartProhibited

/-- The character is in either prohibition set. -/
def prohibitedChar (config : AppConfig) (c : Nat) : Prop :=
  c ∈ config.text.kinsoku.lineStartProhibited ∨
  c ∈ config.text.kinsoku.lineEndProhibited

/-- Relation between consecutive emitted lines: a line may end with a
line-end-prohibited character only when the following line's second character
is line-start-prohibited (the break detached one character to keep that
prohibited character off the line start, exposing the prohibited line end). -/
def endRel (config : AppConfig) (L L' : Str) : Prop :=
  ∀ c, L.getLast? = some c → c ∈ config.text.kinsoku.lineEndProhibited →
    ∃ c', L'[1]? = some c' ∧ c' ∈ config.text.kinsoku.lineStartProhibited

/-- The two prohibition sets share no character (true of the default
configuration). -/
def KinsokuDisjoint (config : AppConfig) : Prop :=
  ∀ c ∈ config.text.kinsoku.lineStartProhibited,
    c ∉ config.text.kinsoku.lineEndProhibited

/-- No two adjacent characters are both prohibited. -/
def NoAdjacentProhibited (config : AppConfig) (p : Str) : Prop :=
  List.Chain' (fun a b => ¬(prohibitedChar config a ∧ prohibitedChar config b)) p

/-- Invariant of the paragraph scan underlying the kinsoku guarantees: content
is conserved, lines are only produced after characters are consumed, no stored
line starts with a prohibited character, and consecutive stored lines (and the
last stored line against the line in progress) satisfy `endRel`. -/
def C2Inv (config : AppConfig) (done : Str) (s : WrapState) : Prop :=
  concatAll s.lines ++ s.currentLine = done ∧
  (s.currentLine = [] → s.lines = []) ∧
  (∀ L ∈ s.lines, headNotProhibited config L) ∧
  headNotProhibited config s.currentLine ∧
  List.Chain' (endRel config) s.lines ∧
  (∀ Llast, s.lines.getLast? = some Llast → endRel config Llast s.currentLine)

end Quotto

namespace Quotto

/-! ## Concrete wrapping cases (claim C3) -/

/-- C3: wrapping `"あいうえおかきくけこ、さしすせそ"` at width 160, font size 16
yields exactly `["あいうえおかきくけ", "こ、さしすせそ"]`, and wrapping
`"これはテストです。次の文章が続きます"` at width 128, font size 16 yields first
line `"これはテストで"` and a second line starting with `"す。"`. -/
theorem C3_concreteWrapCases :
    wrapText [0x3042, 0x3044, 0x3046, 0x3048, 0x304a, 0x304b, 0x304d, 0x304f,
              0x3051, 0x3053, 0x3001, 0x3055, 0x3057, 0x3059, 0x305b, 0x305d]
        160 16 DEFAULT_CONFIG =
      [[0x3042, 0x3044, 0x3046, 0x3048, 0x304a, 0x304b, 0x304d, 0x304f, 0x3051],
       [0x3053, 0x3001, 0x3055, 0x3057, 0x3059, 0x305b, 0x305d]] ∧
    (wrapText [0x3053, 0x308c, 0x306f, 0x30c6, 0x30b9, 0x30c8, 0x3067, 0x3059,
               0x3002, 0x6b21, 0x306e, 0x6587, 0x7ae0, 0x304c, 0x7d9a, 0x304d,
               0x307e, 0x3059] 128 16 DEFAULT_CONFIG)[0]? =
      some [0x3053, 0x308c, 0x306f, 0x30c6, 0x30b9, 0x30c8, 0x3067] ∧
    ((wrapText [0x3053, 0x308c, 0x306f, 0x30c6, 0x30b9, 0x30c8, 0x3067, 0x3059,
                0x3002, 0x6b21, 0x306e, 0x6587, 0x7ae0, 0x304c, 0x7d9a, 0x304d,
                0x307e, 0x3059] 128 16 DEFAULT_CONFIG)[1]?.getD []).take 2 =
      [0x3059, 0x3002] := by decide

/-! ## Line truncator (claim C4) -/

/-- C4: `truncateTextToMaxLines` returns short lists unchanged; an over-long
list is cut to exactly `maxLines` lines, keeping the first `maxLines - 1`
verbatim and replacing the line at index `maxLines - 1` by its
ellipsis-suffixed variant (last 3 characters replaced by `"..."` when its
length exceeds 10, `"..."` appended otherwise). -/
theorem C4_truncate (lines : List Str) (maxLines : Nat) :
    (lines.length ≤ maxLines → truncateTextToMaxLines lines maxLines = lines) ∧
    (1 ≤ maxLines → maxLines < lines.length →
      truncateTextToMaxLines lines maxLines =
        lines.take (maxLines - 1) ++
          [if (lines.getD (maxLines - 1) []).length > 10 then
              (lines.getD (maxLines - 1) []).take
                  ((lines.getD (maxLines - 1) []).length - 3) ++ [46, 46, 46]
            else lines.getD (maxLines - 1) [] ++ [46, 46, 46]] ∧
      (truncateTextToMaxLines lines maxLines).length = maxLines) := by
  constructor
  · intro hle
    simp [truncateTextToMaxLines, hle]
  · intro h1 hlt
    have hnle : ¬ lines.length ≤ maxLines := by omega
    constructor
    · simp only [truncateTextToMaxLines, if_neg hnle]
      split <;> simp
    · simp only [truncateTextToMaxLines, if_neg hnle]
      split <;> simp <;> omega

/-- Witness for C4 at concrete inputs. -/
theorem C4_truncate_witness :
    truncateTextToMaxLines [[65], [66], [67]] 5 = [[65], [66], [67]] ∧
    truncateTextToMaxLines [[65], [66], [67]] 2 = [[65], [66, 46, 46, 46]] := by
  refine ⟨(C4_truncate [[65], [66], [67]] 5).1 (by decide), ?_⟩
  have h := ((C4_truncate [[65], [66], [67]] 2).2 (by decide) (by decide)).1
  simpa using h

/-! ## Layout planner (claims C5, C6, C7) -/

/-- C5: if any section's line count at base font size exceeds its max-lines
ceiling, all three sections drop to minimum font size simultaneously;
otherwise all three stay at base size. -/
theorem C5_allOrNothing (qd : QuoteData) (config : AppConfig) :
    ((wrapText qd.quote (getMaxTextWidth config) config.font.sizes.quote.base
          config).length > config.text.maxLines.quote ∨
      (if truthy qd.title then
          wrapText (qd.title.getD []) (getMaxTextWidth config)
            config.font.sizes.title.base config
        else []).length > config.text.maxLines.title ∨
      (if truthy qd.author then
          wrapText (qd.author.getD []) (getMaxTextWidth config)
            config.font.sizes.author.base config
        else []).length > config.text.maxLines.author →
      calculateOptimalFontSizes qd config =
        ⟨config.font.sizes.quote.min, config.font.sizes.title.min,
         config.font.sizes.author.min⟩) ∧
    (¬((wrapText qd.quote (getMaxTextWidth config) config.font.sizes.quote.base
          config).length > config.text.maxLines.quote ∨
        (if truthy qd.title then
            wrapText (qd.title.getD []) (getMaxTextWidth config)
              config.font.sizes.title.base config
          else []).length > config.text.maxLines.title ∨
        (if truthy qd.author then
            wrapText (qd.author.getD []) (getMaxTextWidth config)
              config.font.sizes.author.base config
          else []).length > config.text.maxLines.author) →
      calculateOptimalFontSizes qd config =
        ⟨config.font.sizes.quote.base, config.font.sizes.title.base,
         config.font.sizes.author.base⟩) := by
  constructor
  · intro h
    simp only [calculateOptimalFontSizes, if_pos h]
  · intro h
    simp only [calculateOptimalFontSizes, if_neg h]

set_option maxRecDepth 8000 in
/-- Witness for C5: a short quote keeps all base sizes; an over-long author
(4 wrapped lines > 3 allowed) forces all three sections to minimum sizes even
though quote and title fit at base size. -/
theorem C5_allOrNothing_witness :
    calculateOptimalFontSizes ⟨[72, 105], some [84], some [65]⟩ DEFAULT_CONFIG =
      ⟨24, 18, 16⟩ ∧
    calculateOptimalFontSizes
        ⟨[72, 105], some [84], some (List.replicate 91 0x3042)⟩ DEFAULT_CONFIG =
      ⟨16, 14, 12⟩ := by
  constructor
  · exact (C5_allOrNothing ⟨[72, 105], some [84], some [65]⟩ DEFAULT_CONFIG).2
      (by decide)
  · exact (C5_allOrNothing ⟨[72, 105], some [84], some (List.replicate 91 0x3042)⟩
      DEFAULT_CONFIG).1 (by decide)

/-- C6: the pre-clamp required height is the start offset, plus per present
section `truncatedLineCount * (fontSize + lineGap)`, plus the gap after the
quote section unconditionally, plus the gap after the title section only when
a title is present, plus the footer reservation; nothing is added for an
absent author. -/
theorem C6_requiredHeightFormula (qd : QuoteData) (fs : FontSizes) (config : AppConfig) :
    calculateRequiredHeight qd fs config =
      config.spacing.startY
      + (truncateTextToMaxLines
            (wrapText qd.quote (getMaxTextWidth config) fs.quoteFontSize config)
            config.text.maxLines.quote).length
          * (fs.quoteFontSize + config.spacing.lineGap.quote)
      + config.spacing.sectionGap.afterQuote
      + (if truthy qd.title then
            (truncateTextToMaxLines
                (wrapText (qd.title.getD []) (getMaxTextWidth config)
                  fs.titleFontSize config)
                config.text.maxLines.title).length
              * (fs.titleFontSize + config.spacing.lineGap.title)
            + config.spacing.sectionGap.afterTitle
          else 0)
      + (if truthy qd.author then
            (truncateTextToMaxLines
                (wrapText (qd.author.getD []) (getMaxTextWidth config)
                  fs.authorFontSize config)
                config.text.maxLines.author).length
              * (fs.authorFontSize + config.spacing.lineGap.author)
          else 0)
      + config.canvas.footerHeight := by
  simp only [calculateRequiredHeight]
  by_cases ht : truthy qd.title <;> by_cases ha : truthy qd.author <;>
    simp [ht, ha] <;> ring

/-- C7: the canvas height of `generateQuoteImage` lies in
`[minHeight, maxHeight]` whenever `minHeight ≤ maxHeight`. -/
theorem C7_heightClamped (qd : QuoteData) (config : AppConfig)
    (h : config.canvas.minHeight ≤ config.canvas.maxHeight) :
    config.canvas.minHeight ≤ canvasHeight qd config ∧
    canvasHeight qd config ≤ config.canvas.maxHeight := by
  simp only [canvasHeight]
  omega

/-- Witness for C7 at a concrete quote and the default configuration. -/
theorem C7_heightClamped_witness :
    400 ≤ canvasHeight ⟨[72, 105], none, none⟩ DEFAULT_CONFIG ∧
    canvasHeight ⟨[72, 105], none, none⟩ DEFAULT_CONFIG ≤ 1200 :=
  C7_heightClamped ⟨[72, 105], none, none⟩ DEFAULT_CONFIG (by decide)

/-! ## Validation (claim C8) -/

/-- C8: quote validation fails with `EMPTY_QUOTE` on `""` and `"   "` and
succeeds on `"  Hi  "` (the created non-empty string being the trimmed
`"Hi"`); output-path validation fails with `INVALID_OUTPUT_PATH` on
`"out.jpg"` and succeeds on `"out.png"`. -/
theorem C8_validation :
    createNonEmptyString [] = .error "String cannot be empty" ∧
    createNonEmptyString [32, 32, 32] = .error "String cannot be empty" ∧
    createNonEmptyString [32, 32, 72, 105, 32, 32] = .ok [72, 105] ∧
    validateForGeneration ⟨[], none, none⟩ [111, 117, 116, 46, 112, 110, 103] =
      .error .EMPTY_QUOTE ∧
    validateForGeneration ⟨[32, 32, 32], none, none⟩
        [111, 117, 116, 46, 112, 110, 103] = .error .EMPTY_QUOTE ∧
    validateForGeneration ⟨[32, 32, 72, 105, 32, 32], none, none⟩
        [111, 117, 116, 46, 112, 110, 103] =
      .ok (⟨[32, 32, 72, 105, 32, 32], none, none⟩,
           [111, 117, 116, 46, 112, 110, 103]) ∧
    validateForGeneration ⟨[32, 32, 72, 105, 32, 32], none, none⟩
        [111, 117, 116, 46, 106, 112, 103] = .error .INVALID_OUTPUT_PATH ∧
    validateOutputPath [111, 117, 116, 46, 106, 112, 103] =
      .error "Output path must have .png extension" ∧
    validateOutputPath [111, 117, 116, 46, 112, 110, 103] =
      .ok [111, 117, 116, 46, 112, 110, 103] :=
  ⟨rfl, rfl, rfl, rfl, rfl, rfl, rfl, rfl, rfl⟩

/-! ## Code-unit granularity (claim C10) -/

/-- C10: `getCharWidth` inspects only the first UTF-16 code unit of its
argument; each surrogate of a supplementary-plane character counts as width 1
(so the character contributes 2 width units); and wrapping the single emoji
U+1F600 (`[0xd83d, 0xde00]`) at width 1, font size 2 places a line break
between its two surrogates, splitting the character across two lines. -/
theorem C10_codeUnitGranularity :
    (∀ c rest rest', getCharWidth (c :: rest) = getCharWidth (c :: rest')) ∧
    getCharWidth [0xd83d] = 1 ∧ getCharWidth [0xde00] = 1 ∧
    estWidth2 [0xd83d, 0xde00] 1 = 2 ∧
    wrapText [0xd83d, 0xde00] 1 2 DEFAULT_CONFIG = [[0xd83d], [0xde00]] :=
  ⟨fun _ _ _ => rfl, rfl, rfl, rfl, by decide⟩

/-! ## Counterexamples to claims C1 and C2 as stated -/

/-- C1 counterexample: wrapping `"あ（、"` (`[0x3042, 0xff08, 0x3001]`) at
width 40, font size 16 with the default configuration emits a single line of
3 characters whose estimated pixel width is 48 > 40 (doubled: 96 > 80), so a
multi-character line can exceed the maximum width. -/
theorem C1_counterexample :
    wrapText [0x3042, 0xff08, 0x3001] 40 16 DEFAULT_CONFIG =
      [[0x3042, 0xff08, 0x3001]] ∧
    2 * 40 < estWidth2 [0x3042, 0xff08, 0x3001] 16 ∧
    ([0x3042, 0xff08, 0x3001] : Str).length ≠ 1 := by decide

/-- C2 counterexample: wrapping `"、、、"` at width 16, font size 16 emits the
line `"、"`, which starts with the line-start-prohibited `、`; and wrapping
`"あ（あ、"` at width 48, font size 16 emits the line `"あ（"`, which ends with
the line-end-prohibited `（` — in both cases the paragraph has 3-4 characters
available to redistribute. -/
theorem C2_counterexample :
    wrapText [0x3001, 0x3001, 0x3001] 16 16 DEFAULT_CONFIG =
      [[0x3001], [0x3001, 0x3001]] ∧
    (0x3001 : Nat) ∈ DEFAULT_CONFIG.text.kinsoku.lineStartProhibited ∧
    wrapText [0x3042, 0xff08, 0x3042, 0x3001] 48 16 DEFAULT_CONFIG =
      [[0x3042, 0xff08], [0x3042, 0x3001]] ∧
    (0xff08 : Nat) ∈ DEFAULT_CONFIG.text.kinsoku.lineEndProhibited := by decide

end Quotto

namespace Quotto

/-! ## Basic facts about the embedding -/

theorem concatAll_append (a b : List Str) :
    concatAll (a ++ b) = concatAll a ++ concatAll b := by
  induction a with
  | nil => rfl
  | cons l ls ih => simp [concatAll, ih]

theorem mem_joinSegs {x : Str} {segs : List (List Str)} :
    x ∈ joinSegs segs ↔ ∃ seg ∈ segs, x ∈ seg := by
  induction segs with
  | nil => simp [joinSegs]
  | cons seg segs ih => simp [joinSegs, ih]

theorem getLast?_eq_getD {L : Str} (h : L ≠ []) :
    L.getLast? = some (L.getD (L.length - 1) 0) := by
  have h0 : 0 < L.length := List.length_pos.mpr h
  have hlt : L.length - 1 < L.length := by omega
  rw [List.getLast?_eq_getElem?, List.getElem?_eq_getElem hlt,
    List.getD_eq_getElem?_getD, List.getElem?_eq_getElem hlt]
  rfl

theorem drop_length_sub_one {L : Str} (h : L ≠ []) :
    L.drop (L.length - 1) = [L.getD (L.length - 1) 0] := by
  have h0 : 0 < L.length := List.length_pos.mpr h
  have hlt : L.length - 1 < L.length := by omega
  rw [List.drop_eq_getElem_cons hlt]
  have e : L.length - 1 + 1 = L.length := by omega
  rw [e, List.drop_length, List.getD_eq_getElem?_getD,
    List.getElem?_eq_getElem hlt]
  rfl

theorem drop_length_sub_two {L : Str} (h : 2 ≤ L.length) :
    L.drop (L.length - 2) =
      [L.getD (L.length - 2) 0, L.getD (L.length - 1) 0] := by
  have hne : L ≠ [] := by
    intro hn
    rw [hn] at h
    simp at h
  have h2 : L.length - 2 < L.length := by omega
  have e : L.length - 2 + 1 = L.length - 1 := by omega
  have hgd : L.getD (L.length - 2) 0 = L[L.length - 2] := by
    rw [List.getD_eq_getElem?_getD, List.getElem?_eq_getElem h2]
    rfl
  rw [List.drop_eq_getElem_cons h2, e, drop_length_sub_one hne, hgd]

/-! ## Facts about `breakStep` -/

/-- Explicit four-way case form of the kinsoku adjustment. -/
theorem breakStep_eq (config : AppConfig) (line : Str) (char : Nat) :
    breakStep config line char =
      if line.getD (line.length - 1) 0 ∈ config.text.kinsoku.lineEndProhibited then
        if char ∈ config.text.kinsoku.lineStartProhibited ∧ 0 < line.length - 1 then
          (line.length - 1 - 1,
           [line.getD (line.length - 1 - 1) 0, line.getD (line.length - 1) 0])
        else (line.length - 1, [line.getD (line.length - 1) 0])
      else
        if char ∈ config.text.kinsoku.lineStartProhibited ∧ 0 < line.length then
          (line.length - 1, [line.getD (line.length - 1) 0])
        else (line.length, []) := by
  simp only [breakStep]
  by_cases h1 : line.getD (line.length - 1) 0 ∈ config.text.kinsoku.lineEndProhibited <;>
    simp only [h1, if_true, if_false, reduceIte] <;>
    by_cases h2 : char ∈ config.text.kinsoku.lineStartProhibited <;>
    simp [h1, h2]

theorem breakStep_snd_eq_drop (config : AppConfig) {line : Str} (char : Nat)
    (h : line ≠ []) :
    (breakStep config line char).2 = line.drop (breakStep config line char).1 := by
  have h0 : 0 < line.length := List.length_pos.mpr h
  rw [breakStep_eq]
  split_ifs with h1 h2 h3
  · have h2' : 2 ≤ line.length := by omega
    have e : line.length - 1 - 1 = line.length - 2 := by omega
    rw [e]
    exact (drop_length_sub_two h2').symm
  · exact (drop_length_sub_one h).symm
  · exact (drop_length_sub_one h).symm
  · simp [List.drop_length]

theorem breakStep_fst_le (config : AppConfig) (line : Str) (char : Nat) :
    (breakStep config line char).1 ≤ line.length := by
  rw [breakStep_eq]
  split_ifs <;> simp <;> omega

theorem breakStep_snd_length_le (config : AppConfig) (line : Str) (char : Nat) :
    (breakStep config line char).2.length ≤ 2 := by
  rw [breakStep_eq]
  split_ifs <;> simp

/-! ## Facts about `wrapStep` -/

/-- Two-way case form of one loop iteration. -/
theorem wrapStep_cases (config : AppConfig) (maxWidth fontSize : Nat)
    (s : WrapState) (char : Nat) :
    (2 * maxWidth < s.currentWidth2 + getCharWidth [char] * fontSize ∧
      s.currentLine ≠ [] ∧
      wrapStep config maxWidth fontSize s char =
        { lines := s.lines ++
            if s.currentLine.take (breakStep config s.currentLine char).1 = []
            then []
            else [s.currentLine.take (breakStep config s.currentLine char).1]
          currentLine := (breakStep config s.currentLine char).2 ++ [char]
          currentWidth2 :=
            recomputeWidth2 ((breakStep config s.currentLine char).2 ++ [char])
              fontSize }) ∨
    (¬(2 * maxWidth < s.currentWidth2 + getCharWidth [char] * fontSize ∧
        s.currentLine ≠ []) ∧
      wrapStep config maxWidth fontSize s char =
        { lines := s.lines
          currentLine := s.currentLine ++ [char]
          currentWidth2 := s.currentWidth2 + getCharWidth [char] * fontSize }) := by
  by_cases h : s.currentWidth2 + getCharWidth [char] * fontSize > 2 * maxWidth ∧
      s.currentLine ≠ []
  · exact .inl ⟨h.1, h.2, by simp only [wrapStep, if_pos h]⟩
  · exact .inr ⟨h, by simp only [wrapStep, if_neg h]⟩

theorem wrapStep_currentLine_ne (config : AppConfig) (maxWidth fontSize : Nat)
    (s : WrapState) (char : Nat) :
    (wrapStep config maxWidth fontSize s char).currentLine ≠ [] := by
  rcases wrapStep_cases config maxWidth fontSize s char with ⟨_, _, heq⟩ | ⟨_, heq⟩ <;>
    simp [heq]

/-- One step consumes exactly one character of content. -/
theorem wrapStep_content (config : AppConfig) (maxWidth fontSize : Nat)
    (s : WrapState) (char : Nat) :
    concatAll (wrapStep config maxWidth fontSize s char).lines ++
      (wrapStep config maxWidth fontSize s char).currentLine =
    concatAll s.lines ++ s.currentLine ++ [char] := by
  rcases wrapStep_cases config maxWidth fontSize s char with ⟨_, hne, heq⟩ | ⟨_, heq⟩
  · rw [heq]
    simp only [concatAll_append]
    rw [breakStep_snd_eq_drop config char hne]
    by_cases hf : s.currentLine.take (breakStep config s.currentLine char).1 = []
    · rw [if_pos hf]
      have : (breakStep config s.currentLine char).1 = 0 := by
        rcases List.take_eq_nil_iff.mp hf with h0 | h0
        · exact h0
        · exact absurd h0 hne
      simp [concatAll, this]
    · rw [if_neg hf]
      simp only [concatAll, List.append_nil]
      rw [List.append_assoc, ← List.append_assoc (s.currentLine.take _),
        List.take_append_drop]
      simp
  · rw [heq]
    simp

theorem wrapStep_lines_ne (config : AppConfig) (maxWidth fontSize : Nat)
    (s : WrapState) (char : Nat) (h : ∀ L ∈ s.lines, L ≠ []) :
    ∀ L ∈ (wrapStep config maxWidth fontSize s char).lines, L ≠ [] := by
  rcases wrapStep_cases config maxWidth fontSize s char with ⟨_, _, heq⟩ | ⟨_, heq⟩ <;>
    rw [heq] <;> intro L hL
  · rcases List.mem_append.mp hL with h1 | h2
    · exact h L h1
    · by_cases hf : s.currentLine.take (breakStep config s.currentLine char).1 = []
      · rw [if_pos hf] at h2
        simp at h2
      · rw [if_neg hf] at h2
        simp only [List.mem_singleton] at h2
        rw [h2]
        exact hf
  · exact h L hL

end Quotto

namespace Quotto

/-! ## Fold-level facts and content conservation (claim C9) -/

theorem foldl_wrapStep_content (config : AppConfig) (maxWidth fontSize : Nat)
    (rest : Str) :
    ∀ s : WrapState,
      concatAll (List.foldl (wrapStep config maxWidth fontSize) s rest).lines ++
        (List.foldl (wrapStep config maxWidth fontSize) s rest).currentLine =
      concatAll s.lines ++ s.currentLine ++ rest := by
  induction rest with
  | nil => intro s; simp
  | cons c cs ih =>
    intro s
    simp only [List.foldl_cons]
    rw [ih (wrapStep config maxWidth fontSize s c), wrapStep_content]
    simp

theorem foldl_wrapStep_lines_ne (config : AppConfig) (maxWidth fontSize : Nat)
    (rest : Str) :
    ∀ s : WrapState, (∀ L ∈ s.lines, L ≠ []) →
      ∀ L ∈ (List.foldl (wrapStep config maxWidth fontSize) s rest).lines, L ≠ [] := by
  induction rest with
  | nil => intro s h; simpa using h
  | cons c cs ih =>
    intro s h
    simp only [List.foldl_cons]
    exact ih (wrapStep config maxWidth fontSize s c)
      (wrapStep_lines_ne config maxWidth fontSize s c h)

theorem foldl_wrapStep_currentLine_ne (config : AppConfig)
    (maxWidth fontSize : Nat) (rest : Str) :
    ∀ s : WrapState, s.currentLine ≠ [] ∨ rest ≠ [] →
      (List.foldl (wrapStep config maxWidth fontSize) s rest).currentLine ≠ [] := by
  induction rest with
  | nil =>
    intro s h
    simpa using h.resolve_right (by simp)
  | cons c cs ih =>
    intro s _
    simp only [List.foldl_cons]
    exact ih (wrapStep config maxWidth fontSize s c)
      (.inl (wrapStep_currentLine_ne config maxWidth fontSize s c))

/-- A wrapped paragraph concatenates back to the paragraph itself. -/
theorem wrapParagraph_content (config : AppConfig) (maxWidth fontSize : Nat)
    (p : Str) :
    concatAll (wrapParagraph config maxWidth fontSize p) = p := by
  have h := foldl_wrapStep_content config maxWidth fontSize p ⟨[], [], 0⟩
  simp only [concatAll, List.nil_append] at h
  simp only [wrapParagraph]
  by_cases hc :
      (List.foldl (wrapStep config maxWidth fontSize) ⟨[], [], 0⟩ p).currentLine = []
  · rw [if_pos hc]
    rw [hc, List.append_nil] at h
    simpa using h
  · rw [if_neg hc, concatAll_append]
    simpa [concatAll] using h

/-- Every line of a wrapped paragraph is non-empty. -/
theorem wrapParagraph_lines_ne (config : AppConfig) (maxWidth fontSize : Nat)
    (p : Str) :
    ∀ L ∈ wrapParagraph config maxWidth fontSize p, L ≠ [] := by
  simp only [wrapParagraph]
  intro L hL
  rcases List.mem_append.mp hL with h1 | h2
  · exact foldl_wrapStep_lines_ne config maxWidth fontSize p ⟨[], [], 0⟩
      (by simp) L h1
  · by_cases hc :
        (List.foldl (wrapStep config maxWidth fontSize) ⟨[], [], 0⟩ p).currentLine = []
    · rw [if_pos hc] at h2
      simp at h2
    · rw [if_neg hc] at h2
      simp only [List.mem_singleton] at h2
      rw [h2]
      exact hc

/-- `wrapText` is the in-order concatenation of the per-paragraph blocks. -/
theorem wrapText_eq_joinSegs (text : Str) (maxWidth fontSize : Nat)
    (config : AppConfig) :
    wrapText text maxWidth fontSize config =
      joinSegs ((splitOnNewline text).map
        (paragraphLines config maxWidth fontSize)) := by
  suffices h : ∀ (ps : List Str) (acc : List Str),
      List.foldl
        (fun allLines paragraph =>
          if trimStr paragraph = [] then allLines ++ [[]]
          else allLines ++ wrapParagraph config maxWidth fontSize paragraph)
        acc ps =
      acc ++ joinSegs (ps.map (paragraphLines config maxWidth fontSize)) by
    simpa [wrapText] using h (splitOnNewline text) []
  intro ps
  induction ps with
  | nil => intro acc; simp [joinSegs]
  | cons p ps ih =>
    intro acc
    simp only [List.foldl_cons, List.map_cons, joinSegs]
    by_cases hp : trimStr p = []
    · rw [if_pos hp, ih]
      simp [paragraphLines, hp, joinSegs]
    · rw [if_neg hp, ih]
      simp [paragraphLines, hp, joinSegs]

/-- Membership in the `wrapText` output, by paragraph. -/
theorem mem_wrapText {L : Str} {text : Str} {maxWidth fontSize : Nat}
    {config : AppConfig} :
    L ∈ wrapText text maxWidth fontSize config ↔
      ∃ p ∈ splitOnNewline text,
        L ∈ paragraphLines config maxWidth fontSize p := by
  rw [wrapText_eq_joinSegs, mem_joinSegs]
  simp

/-- C9: `wrapText` neither loses, duplicates nor reorders content: its output
is the in-order concatenation of per-paragraph blocks; a whitespace-only
paragraph contributes exactly one empty line; every other paragraph's emitted
lines are non-empty and concatenate back to exactly the paragraph. -/
theorem C9_contentConservation (text : Str) (maxWidth fontSize : Nat)
    (config : AppConfig) :
    wrapText text maxWidth fontSize config =
      joinSegs ((splitOnNewline text).map
        (paragraphLines config maxWidth fontSize)) ∧
    ∀ p ∈ splitOnNewline text,
      (trimStr p = [] → paragraphLines config maxWidth fontSize p = [[]]) ∧
      (trimStr p ≠ [] →
        paragraphLines config maxWidth fontSize p =
          wrapParagraph config maxWidth fontSize p ∧
        concatAll (wrapParagraph config maxWidth fontSize p) = p ∧
        ∀ L ∈ wrapParagraph config maxWidth fontSize p, L ≠ []) := by
  refine ⟨wrapText_eq_joinSegs text maxWidth fontSize config, fun p _ => ⟨?_, ?_⟩⟩
  · intro hp
    simp [paragraphLines, hp]
  · intro hp
    exact ⟨by simp [paragraphLines, hp],
      wrapParagraph_content config maxWidth fontSize p,
      wrapParagraph_lines_ne config maxWidth fontSize p⟩

/-- Witness for C9 on the text `"a\n \nbc"`. -/
theorem C9_contentConservation_witness :
    concatAll (wrapParagraph DEFAULT_CONFIG 480 24 [98, 99]) = [98, 99] ∧
    paragraphLines DEFAULT_CONFIG 480 24 [32] = [[]] := by
  constructor
  · exact (((C9_contentConservation [97, 10, 32, 10, 98, 99] 480 24
      DEFAULT_CONFIG).2 [98, 99] (by decide)).2 (by decide)).2.1
  · exact ((C9_contentConservation [97, 10, 32, 10, 98, 99] 480 24
      DEFAULT_CONFIG).2 [32] (by decide)).1 (by decide)

end Quotto

namespace Quotto

/-! ## Width bound machinery (claim C1) -/

theorem estWidth2_append (a b : Str) (fs : Nat) :
    estWidth2 (a ++ b) fs = estWidth2 a fs + estWidth2 b fs := by
  simp [estWidth2, List.map_append, List.sum_append]

theorem estWidth2_take_le (L : Str) (k fs : Nat) :
    estWidth2 (L.take k) fs ≤ estWidth2 L fs := by
  conv_rhs => rw [← List.take_append_drop k L]
  rw [estWidth2_append]
  omega

theorem foldl_add_map {α : Type} (g : α → Nat) (l : List α) :
    ∀ init : Nat, l.foldl (fun w a => w + g a) init = init + (l.map g).sum := by
  induction l with
  | nil => intro init; simp
  | cons a l ih =>
    intro init
    simp only [List.foldl_cons, List.map_cons, List.sum_cons]
    rw [ih]
    omega

/-- Without an adjacent high/low surrogate pair, `for..of` iteration visits
the code units one by one. -/
theorem codePoints_eq_singletons :
    ∀ l : Str, NoSurrogatePair l → codePoints l = l.map (fun c => [c])
  | [], _ => rfl
  | [_], _ => rfl
  | c :: c2 :: rest, h => by
    have hrel : ¬(isHighSurrogate c = true ∧ isLowSurrogate c2 = true) :=
      (List.chain'_cons.mp h).1
    have htail : NoSurrogatePair (c2 :: rest) := (List.chain'_cons.mp h).2
    simp only [codePoints, List.map_cons]
    rw [if_neg (by simpa [Bool.and_eq_true] using hrel),
      codePoints_eq_singletons (c2 :: rest) htail]
    simp

/-- The post-break width recomputation agrees with the per-code-unit width
when the new line holds no surrogate pair. -/
theorem recomputeWidth2_eq_estWidth2 (l : Str) (fs : Nat)
    (h : NoSurrogatePair l) : recomputeWidth2 l fs = estWidth2 l fs := by
  rw [recomputeWidth2, codePoints_eq_singletons l h,
    foldl_add_map (fun cp => getCharWidth cp * fs)]
  simp only [estWidth2, List.map_map, Nat.zero_add]
  rfl

/-- With surrogate-free prohibition sets, the carried-over text plus the
incoming character holds no surrogate pair. -/
theorem breakStep_nextLine_noPair (config : AppConfig) (line : Str)
    (char : Nat) (hcfg : SurrogateFreeSets config) :
    NoSurrogatePair ((breakStep config line char).2 ++ [char]) := by
  rw [breakStep_eq]
  split_ifs with h1 h2 h3
  · -- carry [y, x] with x line-end prohibited, incoming char
    have hx := hcfg.2 _ h1
    simp only [NoSurrogatePair, List.cons_append, List.singleton_append,
      List.nil_append]
    rw [List.chain'_cons, List.chain'_cons]
    refine ⟨?_, ?_, List.chain'_singleton _⟩
    · rintro ⟨_, hlow⟩
      rw [hx.2] at hlow
      exact Bool.noConfusion hlow
    · rintro ⟨hhigh, _⟩
      rw [hx.1] at hhigh
      exact Bool.noConfusion hhigh
  · -- carry [x] with x line-end prohibited
    have hx := hcfg.2 _ h1
    simp only [NoSurrogatePair, List.cons_append, List.singleton_append,
      List.nil_append]
    rw [List.chain'_cons]
    refine ⟨?_, List.chain'_singleton _⟩
    rintro ⟨hhigh, _⟩
    rw [hx.1] at hhigh
    exact Bool.noConfusion hhigh
  · -- carry [y] with incoming char line-start prohibited
    have hc := hcfg.1 _ h3.1
    simp only [NoSurrogatePair, List.cons_append, List.singleton_append,
      List.nil_append]
    rw [List.chain'_cons]
    refine ⟨?_, List.chain'_singleton _⟩
    rintro ⟨_, hlow⟩
    rw [hc.2] at hlow
    exact Bool.noConfusion hlow
  · -- no carry
    simp only [NoSurrogatePair, List.nil_append]
    exact List.chain'_singleton _

theorem wrapStep_C1Inv (config : AppConfig) (maxWidth fontSize : Nat)
    (s : WrapState) (char : Nat) (hcfg : SurrogateFreeSets config)
    (h : C1Inv maxWidth fontSize s) :
    C1Inv maxWidth fontSize (wrapStep config maxWidth fontSize s char) := by
  obtain ⟨hw, hcur, hlines⟩ := h
  rcases wrapStep_cases config maxWidth fontSize s char with
    ⟨hgt, hne, heq⟩ | ⟨hng, heq⟩
  · rw [heq]
    refine ⟨?_, ?_, ?_⟩
    · exact recomputeWidth2_eq_estWidth2 _ _
        (breakStep_nextLine_noPair config s.currentLine char hcfg)
    · right
      have := breakStep_snd_length_le config s.currentLine char
      simp only [List.length_append, List.length_singleton]
      omega
    · intro L hL
      rcases List.mem_append.mp hL with h1 | h2
      · exact hlines L h1
      · by_cases hf : s.currentLine.take (breakStep config s.currentLine char).1 = []
        · rw [if_pos hf] at h2
          simp at h2
        · rw [if_neg hf] at h2
          simp only [List.mem_singleton] at h2
          subst h2
          rcases hcur with hfit | hshort
          · exact .inl (le_trans (estWidth2_take_le _ _ _) hfit)
          · refine .inr (le_trans ?_ hshort)
            simpa using List.length_take_le _ s.currentLine
  · rw [heq]
    refine ⟨?_, ?_, hlines⟩
    · rw [estWidth2_append, hw]
      simp [estWidth2]
    · by_cases hc : s.currentLine = []
      · right
        simp [hc]
      · left
        have hle : ¬ 2 * maxWidth <
            s.currentWidth2 + getCharWidth [char] * fontSize :=
          fun hlt => hng ⟨hlt, hc⟩
        rw [estWidth2_append, ← hw]
        simp only [estWidth2, List.map_cons, List.map_nil, List.sum_cons,
          List.sum_nil]
        omega

theorem foldl_wrapStep_C1Inv (config : AppConfig) (maxWidth fontSize : Nat)
    (hcfg : SurrogateFreeSets config) (rest : Str) :
    ∀ s : WrapState, C1Inv maxWidth fontSize s →
      C1Inv maxWidth fontSize
        (List.foldl (wrapStep config maxWidth fontSize) s rest) := by
  induction rest with
  | nil => intro s h; simpa using h
  | cons c cs ih =>
    intro s h
    simp only [List.foldl_cons]
    exact ih _ (wrapStep_C1Inv config maxWidth fontSize s c hcfg h)

theorem wrapParagraph_width (config : AppConfig) (maxWidth fontSize : Nat)
    (p : Str) (hcfg : SurrogateFreeSets config) :
    ∀ L ∈ wrapParagraph config maxWidth fontSize p,
      estWidth2 L fontSize ≤ 2 * maxWidth ∨ L.length ≤ 3 := by
  have hinv := foldl_wrapStep_C1Inv config maxWidth fontSize hcfg p ⟨[], [], 0⟩
    ⟨by simp [estWidth2], .inl (by simp [estWidth2]), by simp⟩
  simp only [wrapParagraph]
  intro L hL
  rcases List.mem_append.mp hL with h1 | h2
  · exact hinv.2.2 L h1
  · by_cases hc :
        (List.foldl (wrapStep config maxWidth fontSize) ⟨[], [], 0⟩ p).currentLine = []
    · rw [if_pos hc] at h2
      simp at h2
    · rw [if_neg hc] at h2
      simp only [List.mem_singleton] at h2
      subst h2
      exact hinv.2.1

/-- C1 (amended): for prohibition sets free of surrogate code units (as the
default sets are), every line emitted by `wrapText` either has estimated pixel
width at most `maxWidth` (stated doubled: `estWidth2 ≤ 2 * maxWidth`) or has
at most 3 characters — a kinsoku carry-over of up to two detached characters
plus the incoming character; in particular an over-width single character is
emitted alone, and the wrapper (a total function) terminates. -/
theorem C1_amended (text : Str) (maxWidth fontSize : Nat) (config : AppConfig)
    (hcfg : SurrogateFreeSets config) :
    ∀ L ∈ wrapText text maxWidth fontSize config,
      estWidth2 L fontSize ≤ 2 * maxWidth ∨ L.length ≤ 3 := by
  intro L hL
  rcases mem_wrapText.mp hL with ⟨p, _, hp⟩
  by_cases hblank : trimStr p = []
  · simp only [paragraphLines, if_pos hblank, List.mem_singleton] at hp
    subst hp
    left
    simp [estWidth2]
  · simp only [paragraphLines, if_neg hblank] at hp
    exact wrapParagraph_width config maxWidth fontSize p hcfg L hp

/-- Witness for C1 (amended) on the first concrete case of C3. -/
theorem C1_amended_witness :
    estWidth2 [0x3042, 0x3044, 0x3046, 0x3048, 0x304a, 0x304b, 0x304d, 0x304f,
               0x3051] 16 ≤ 2 * 160 ∨
    ([0x3042, 0x3044, 0x3046, 0x3048, 0x304a, 0x304b, 0x304d, 0x304f,
      0x3051] : Str).length ≤ 3 :=
  C1_amended
    [0x3042, 0x3044, 0x3046, 0x3048, 0x304a, 0x304b, 0x304d, 0x304f, 0x3051,
     0x3053, 0x3001, 0x3055, 0x3057, 0x3059, 0x305b, 0x305d] 160 16
    DEFAULT_CONFIG ⟨by decide, by decide⟩ _ (by decide)

end Quotto

namespace Quotto

/-! ## Kinsoku guarantee machinery (claim C2) -/

theorem head?_take_pos {L : Str} {k : Nat} (hk : k ≠ 0) :
    (L.take k).head? = L.head? := by
  rw [List.head?_take, if_neg hk]

theorem getLast?_take {L : Str} {k : Nat} (hk : 0 < k) (hle : k ≤ L.length) :
    (L.take k).getLast? = some (L.getD (k - 1) 0) := by
  have hlen : (L.take k).length = k := by
    simp [List.length_take]
    omega
  have hne : L.take k ≠ [] := by
    intro hnil
    rw [hnil] at hlen
    simp at hlen
    omega
  rw [getLast?_eq_getD hne, hlen]
  have h1 : k - 1 < (L.take k).length := by omega
  have h2 : k - 1 < L.length := by omega
  rw [List.getD_eq_getElem?_getD, List.getD_eq_getElem?_getD,
    List.getElem?_eq_getElem h1, List.getElem?_eq_getElem h2]
  simp [List.getElem_take]

theorem chain'_getD {R : Nat → Nat → Prop} {L : Str} (h : List.Chain' R L)
    {i : Nat} (hi : i + 1 < L.length) :
    R (L.getD i 0) (L.getD (i + 1) 0) := by
  have h1 : i < L.length - 1 := by omega
  have h2 := List.chain'_iff_get.mp h i h1
  rw [List.getD_eq_getElem?_getD, List.getD_eq_getElem?_getD,
    List.getElem?_eq_getElem (by omega : i < L.length),
    List.getElem?_eq_getElem hi]
  simpa [List.get_eq_getElem] using h2

end Quotto

namespace Quotto

theorem concatAll_singleton (l : Str) : concatAll [l] = l := by
  simp [concatAll]

/-- One loop iteration preserves the kinsoku invariant, provided the
prohibition sets are disjoint, no two adjacent characters of the paragraph are
both prohibited, and the paragraph does not start with a line-start-prohibited
character. -/
theorem wrapStep_C2Inv (config : AppConfig) (maxWidth fontSize : Nat)
    (hdisj : KinsokuDisjoint config) (done rest' : Str) (char : Nat)
    (s : WrapState)
    (hchain : NoAdjacentProhibited config (done ++ char :: rest'))
    (hhead : headNotProhibited config (done ++ char :: rest'))
    (hinv : C2Inv config done s) :
    C2Inv config (done ++ [char]) (wrapStep config maxWidth fontSize s char) := by
  obtain ⟨hcontent, hempty, hlinesHead, hcurHead, hchainLines, hpend⟩ := hinv
  rcases wrapStep_cases config maxWidth fontSize s char with
    ⟨hgt, hne, heq⟩ | ⟨hng, heq⟩
  · -- a break is triggered
    have hnL : 0 < s.currentLine.length := List.length_pos.mpr hne
    have hsuff : s.currentLine <:+ done := ⟨concatAll s.lines, hcontent⟩
    have hchainL : List.Chain'
        (fun a b => ¬(prohibitedChar config a ∧ prohibitedChar config b))
        s.currentLine :=
      List.Chain'.suffix (List.chain'_append.mp hchain).1 hsuff
    have hdlast : done.getLast? =
        some (s.currentLine.getD (s.currentLine.length - 1) 0) := by
      obtain ⟨pre, hpre⟩ := hsuff
      rw [← hpre, List.getLast?_append, getLast?_eq_getD hne]
      rfl
    have hF1 : ¬(prohibitedChar config
          (s.currentLine.getD (s.currentLine.length - 1) 0) ∧
        prohibitedChar config char) := by
      have hlink := (List.chain'_append.mp hchain).2.2
      exact hlink _ (Option.mem_def.mpr hdlast) _ (Option.mem_def.mpr rfl)
    by_cases h2 : char ∈ config.text.kinsoku.lineStartProhibited
    · -- incoming character line-start prohibited; by adjacency the current
      -- line's last character is then not prohibited at all
      have hlastNP : ¬ prohibitedChar config
          (s.currentLine.getD (s.currentLine.length - 1) 0) :=
        fun hp => hF1 ⟨hp, Or.inl h2⟩
      have h1 : s.currentLine.getD (s.currentLine.length - 1) 0 ∉
          config.text.kinsoku.lineEndProhibited :=
        fun hm => hlastNP (Or.inr hm)
      have hbr : breakStep config s.currentLine char =
          (s.currentLine.length - 1,
           [s.currentLine.getD (s.currentLine.length - 1) 0]) := by
        rw [breakStep_eq, if_neg h1, if_pos ⟨h2, hnL⟩]
      by_cases hn1 : s.currentLine.length = 1
      · -- one-character line: nothing is emitted
        obtain ⟨a, ha⟩ := List.length_eq_one.mp hn1
        have htake : s.currentLine.take (s.currentLine.length - 1) = [] := by
          rw [hn1]
          simp
        have hl : (wrapStep config maxWidth fontSize s char).lines = s.lines := by
          rw [heq, hbr]
          simp [htake]
        have hc : (wrapStep config maxWidth fontSize s char).currentLine =
            [s.currentLine.getD (s.currentLine.length - 1) 0, char] := by
          rw [heq, hbr]
          rfl
        refine ⟨?_, ?_, ?_, ?_, ?_, ?_⟩
        · rw [hl, hc]
          have hsplit : ([s.currentLine.getD (s.currentLine.length - 1) 0,
              char] : Str) = s.currentLine ++ [char] := by
            rw [ha]
            rfl
          rw [hsplit, ← List.append_assoc, hcontent]
        · rw [hc]
          intro h
          simp at h
        · rw [hl]
          exact hlinesHead
        · rw [hc]
          intro c hch
          simp only [List.head?_cons, Option.some.injEq] at hch
          subst hch
          exact fun hmem => hlastNP (Or.inl hmem)
        · rw [hl]
          exact hchainLines
        · rw [hl, hc]
          intro Llast hlast c hcend hcmem
          obtain ⟨c', hc', _⟩ := hpend Llast hlast c hcend hcmem
          rw [ha] at hc'
          simp at hc'
      · -- at least two characters: the shortened line is emitted
        have hEne : s.currentLine.take (s.currentLine.length - 1) ≠ [] := by
          intro h
          rcases List.take_eq_nil_iff.mp h with h0 | h0
          · omega
          · exact hne h0
        have hl : (wrapStep config maxWidth fontSize s char).lines =
            s.lines ++ [s.currentLine.take (s.currentLine.length - 1)] := by
          rw [heq, hbr]
          simp [hEne]
        have hc : (wrapStep config maxWidth fontSize s char).currentLine =
            [s.currentLine.getD (s.currentLine.length - 1) 0, char] := by
          rw [heq, hbr]
          rfl
        have hE : s.currentLine.take (s.currentLine.length - 1) ++
            [s.currentLine.getD (s.currentLine.length - 1) 0] = s.currentLine := by
          rw [← drop_length_sub_one hne]
          exact List.take_append_drop _ _
        refine ⟨?_, ?_, ?_, ?_, ?_, ?_⟩
        · rw [hl, hc, concatAll_append, concatAll_singleton]
          have hsplit : ([s.currentLine.getD (s.currentLine.length - 1) 0,
              char] : Str) =
              [s.currentLine.getD (s.currentLine.length - 1) 0] ++ [char] := rfl
          rw [hsplit, ← List.append_assoc, List.append_assoc (concatAll s.lines),
            hE, hcontent]
        · rw [hc]
          intro h
          simp at h
        · rw [hl]
          intro L hL
          rcases List.mem_append.mp hL with hold | hnew
          · exact hlinesHead L hold
          · rw [List.mem_singleton] at hnew
            subst hnew
            intro c hch
            rw [head?_take_pos (by omega)] at hch
            exact hcurHead c hch
        · rw [hc]
          intro c hch
          simp only [List.head?_cons, Option.some.injEq] at hch
          subst hch
          exact fun hmem => hlastNP (Or.inl hmem)
        · rw [hl]
          refine List.chain'_append.mpr ⟨hchainLines, List.chain'_singleton _, ?_⟩
          intro x hx y hy
          simp only [List.head?_cons, Option.mem_def, Option.some.injEq] at hy
          subst hy
          intro c hcend hcmem
          obtain ⟨c', hc', hc'S⟩ := hpend x (Option.mem_def.mp hx) c hcend hcmem
          have h1lt : 1 < s.currentLine.length :=
            (List.getElem?_eq_some.mp hc').1
          by_cases hn2 : s.currentLine.length = 2
          · -- the detached character would itself be the prohibited one:
            -- impossible, since it is adjacent to the prohibited `char`
            exfalso
            have hcV : c' = s.currentLine.getD (s.currentLine.length - 1) 0 := by
              have e : s.currentLine.length - 1 = 1 := by omega
              rw [List.getD_eq_getElem?_getD, e, hc']
              rfl
            exact hlastNP (Or.inl (hcV ▸ hc'S))
          · refine ⟨c', ?_, hc'S⟩
            rw [List.getElem?_take, if_pos (by omega)]
            exact hc'
        · rw [hl, hc]
          intro Llast hlast c hcend hcmem
          have hlastE : s.currentLine.take (s.currentLine.length - 1) = Llast := by
            rw [List.getLast?_append] at hlast
            simpa using hlast
          subst hlastE
          exact ⟨char, by simp, h2⟩
    · -- incoming character not line-start prohibited
      by_cases h1 : s.currentLine.getD (s.currentLine.length - 1) 0 ∈
          config.text.kinsoku.lineEndProhibited
      · -- line-end rule fires: last character detached
        have hbr : breakStep config s.currentLine char =
            (s.currentLine.length - 1,
             [s.currentLine.getD (s.currentLine.length - 1) 0]) := by
          rw [breakStep_eq, if_pos h1, if_neg (by rintro ⟨hc2, _⟩; exact h2 hc2)]
        have hlastNS : s.currentLine.getD (s.currentLine.length - 1) 0 ∉
            config.text.kinsoku.lineStartProhibited :=
          fun hmem => hdisj _ hmem h1
        by_cases hn1 : s.currentLine.length = 1
        · obtain ⟨a, ha⟩ := List.length_eq_one.mp hn1
          have htake : s.currentLine.take (s.currentLine.length - 1) = [] := by
            rw [hn1]
            simp
          have hl : (wrapStep config maxWidth fontSize s char).lines = s.lines := by
            rw [heq, hbr]
            simp [htake]
          have hc : (wrapStep config maxWidth fontSize s char).currentLine =
              [s.currentLine.getD (s.currentLine.length - 1) 0, char] := by
            rw [heq, hbr]
            rfl
          refine ⟨?_, ?_, ?_, ?_, ?_, ?_⟩
          · rw [hl, hc]
            have hsplit : ([s.currentLine.getD (s.currentLine.length - 1) 0,
                char] : Str) = s.currentLine ++ [char] := by
              rw [ha]
              rfl
            rw [hsplit, ← List.append_assoc, hcontent]
          · rw [hc]
            intro h
            simp at h
          · rw [hl]
            exact hlinesHead
          · rw [hc]
            intro c hch
            simp only [List.head?_cons, Option.some.injEq] at hch
            subst hch
            exact hlastNS
          · rw [hl]
            exact hchainLines
          · rw [hl, hc]
            intro Llast hlast c hcend hcmem
            obtain ⟨c', hc', _⟩ := hpend Llast hlast c hcend hcmem
            rw [ha] at hc'
            simp at hc'
        · have hEne : s.currentLine.take (s.currentLine.length - 1) ≠ [] := by
            intro h
            rcases List.take_eq_nil_iff.mp h with h0 | h0
            · omega
            · exact hne h0
          have hl : (wrapStep config maxWidth fontSize s char).lines =
              s.lines ++ [s.currentLine.take (s.currentLine.length - 1)] := by
            rw [heq, hbr]
            simp [hEne]
          have hc : (wrapStep config maxWidth fontSize s char).currentLine =
              [s.currentLine.getD (s.currentLine.length - 1) 0, char] := by
            rw [heq, hbr]
            rfl
          have hE : s.currentLine.take (s.currentLine.length - 1) ++
              [s.currentLine.getD (s.currentLine.length - 1) 0] =
              s.currentLine := by
            rw [← drop_length_sub_one hne]
            exact List.take_append_drop _ _
          refine ⟨?_, ?_, ?_, ?_, ?_, ?_⟩
          · rw [hl, hc, concatAll_append, concatAll_singleton]
            have hsplit : ([s.currentLine.getD (s.currentLine.length - 1) 0,
                char] : Str) =
                [s.currentLine.getD (s.currentLine.length - 1) 0] ++ [char] := rfl
            rw [hsplit, ← List.append_assoc,
              List.append_assoc (concatAll s.lines), hE, hcontent]
          · rw [hc]
            intro h
            simp at h
          · rw [hl]
            intro L hL
            rcases List.mem_append.mp hL with hold | hnew
            · exact hlinesHead L hold
            · rw [List.mem_singleton] at hnew
              subst hnew
              intro c hch
              rw [head?_take_pos (by omega)] at hch
              exact hcurHead c hch
          · rw [hc]
            intro c hch
            simp only [List.head?_cons, Option.some.injEq] at hch
            subst hch
            exact hlastNS
          · rw [hl]
            refine List.chain'_append.mpr
              ⟨hchainLines, List.chain'_singleton _, ?_⟩
            intro x hx y hy
            simp only [List.head?_cons, Option.mem_def, Option.some.injEq] at hy
            subst hy
            intro c hcend hcmem
            obtain ⟨c', hc', hc'S⟩ := hpend x (Option.mem_def.mp hx) c hcend hcmem
            have h1lt : 1 < s.currentLine.length :=
              (List.getElem?_eq_some.mp hc').1
            by_cases hn2 : s.currentLine.length = 2
            · -- detached character both line-start and line-end prohibited:
              -- impossible by disjointness
              exfalso
              have hcV : c' = s.currentLine.getD (s.currentLine.length - 1) 0 := by
                have e : s.currentLine.length - 1 = 1 := by omega
                rw [List.getD_eq_getElem?_getD, e, hc']
                rfl
              exact hlastNS (hcV ▸ hc'S)
            · refine ⟨c', ?_, hc'S⟩
              rw [List.getElem?_take, if_pos (by omega)]
              exact hc'
          · rw [hl, hc]
            intro Llast hlast c hcend hcmem
            have hlastE : s.currentLine.take (s.currentLine.length - 1) =
                Llast := by
              rw [List.getLast?_append] at hlast
              simpa using hlast
            subst hlastE
            -- the exposed new last character cannot be line-end prohibited:
            -- it is adjacent to the (prohibited) detached character
            exfalso
            have hcV : c = s.currentLine.getD (s.currentLine.length - 2) 0 := by
              have := getLast?_take (L := s.currentLine)
                (k := s.currentLine.length - 1) (by omega) (by omega)
              rw [this] at hcend
              have e : s.currentLine.length - 1 - 1 = s.currentLine.length - 2 := by
                omega
              rw [e] at hcend
              exact ((Option.some.injEq _ _).mp hcend).symm
            have hadj : ¬(prohibitedChar config
                  (s.currentLine.getD (s.currentLine.length - 2) 0) ∧
                prohibitedChar config
                  (s.currentLine.getD (s.currentLine.length - 1) 0)) := by
              have e : s.currentLine.length - 2 + 1 = s.currentLine.length - 1 := by
                omega
              have := chain'_getD hchainL
                (i := s.currentLine.length - 2) (by omega)
              rwa [e] at this
            exact hadj ⟨Or.inr (hcV ▸ hcmem), Or.inr h1⟩
      · -- no kinsoku adjustment: the whole line is emitted
        have hbr : breakStep config s.currentLine char =
            (s.currentLine.length, []) := by
          rw [breakStep_eq, if_neg h1, if_neg (by rintro ⟨hc2, _⟩; exact h2 hc2)]
        have hl : (wrapStep config maxWidth fontSize s char).lines =
            s.lines ++ [s.currentLine] := by
          rw [heq, hbr]
          simp [List.take_length, hne]
        have hc : (wrapStep config maxWidth fontSize s char).currentLine =
            [char] := by
          rw [heq, hbr]
          rfl
        refine ⟨?_, ?_, ?_, ?_, ?_, ?_⟩
        · rw [hl, hc, concatAll_append, concatAll_singleton, hcontent]
        · rw [hc]
          intro h
          simp at h
        · rw [hl]
          intro L hL
          rcases List.mem_append.mp hL with hold | hnew
          · exact hlinesHead L hold
          · rw [List.mem_singleton] at hnew
            subst hnew
            exact hcurHead
        · rw [hc]
          intro c hch
          simp only [List.head?_cons, Option.some.injEq] at hch
          subst hch
          exact h2
        · rw [hl]
          refine List.chain'_append.mpr ⟨hchainLines, List.chain'_singleton _, ?_⟩
          intro x hx y hy
          simp only [List.head?_cons, Option.mem_def, Option.some.injEq] at hy
          subst hy
          exact hpend x (Option.mem_def.mp hx)
        · rw [hl, hc]
          intro Llast hlast c hcend hcmem
          have hlastE : s.currentLine = Llast := by
            rw [List.getLast?_append] at hlast
            simpa using hlast
          subst hlastE
          exfalso
          rw [getLast?_eq_getD hne] at hcend
          have : c = s.currentLine.getD (s.currentLine.length - 1) 0 :=
            ((Option.some.injEq _ _).mp hcend).symm
          exact h1 (this ▸ hcmem)
  · -- no break: the character is appended
    have hl : (wrapStep config maxWidth fontSize s char).lines = s.lines := by
      rw [heq]
    have hc : (wrapStep config maxWidth fontSize s char).currentLine =
        s.currentLine ++ [char] := by
      rw [heq]
    refine ⟨?_, ?_, ?_, ?_, ?_, ?_⟩
    · rw [hl, hc, ← List.append_assoc, hcontent]
    · rw [hc]
      intro h
      simp at h
    · rw [hl]
      exact hlinesHead
    · rw [hc]
      intro c hch
      by_cases hcur : s.currentLine = []
      · have hdone : done = [] := by
          have hl0 := hempty hcur
          rw [hl0, hcur] at hcontent
          simpa [concatAll] using hcontent.symm
        rw [hcur] at hch
        simp only [List.nil_append, List.head?_cons, Option.some.injEq] at hch
        subst hch
        exact hhead _ (by rw [hdone]; rfl)
      · rw [List.head?_append_of_ne_nil _ hcur] at hch
        exact hcurHead c hch
    · rw [hl]
      exact hchainLines
    · rw [hl, hc]
      intro Llast hlast c hcend hcmem
      obtain ⟨c', hc', hc'S⟩ := hpend Llast hlast c hcend hcmem
      have h1lt : 1 < s.currentLine.length := (List.getElem?_eq_some.mp hc').1
      exact ⟨c', by rw [List.getElem?_append_left h1lt]; exact hc', hc'S⟩

end Quotto

namespace Quotto

theorem foldl_wrapStep_C2Inv (config : AppConfig) (maxWidth fontSize : Nat)
    (hdisj : KinsokuDisjoint config) (rest : Str) :
    ∀ (done : Str) (s : WrapState),
      NoAdjacentProhibited config (done ++ rest) →
      headNotProhibited config (done ++ rest) →
      C2Inv config done s →
      C2Inv config (done ++ rest)
        (List.foldl (wrapStep config maxWidth fontSize) s rest) := by
  induction rest with
  | nil =>
    intro done s _ _ h
    simpa using h
  | cons c cs ih =>
    intro done s hchain hhead hinv
    simp only [List.foldl_cons]
    have hstep := wrapStep_C2Inv config maxWidth fontSize hdisj done cs c s
      hchain hhead hinv
    have hassoc : (done ++ [c]) ++ cs = done ++ c :: cs := by simp
    have := ih (done ++ [c]) (wrapStep config maxWidth fontSize s c)
      (by rw [hassoc]; exact hchain) (by rw [hassoc]; exact hhead) hstep
    rwa [hassoc] at this

/-- The kinsoku guarantees for one wrapped paragraph: no emitted line starts
with a line-start-prohibited character, and consecutive emitted lines satisfy
`endRel` (so a non-final line ends with a line-end-prohibited character only
when the next line's second character is line-start prohibited). -/
theorem wrapParagraph_kinsoku (config : AppConfig) (maxWidth fontSize : Nat)
    (p : Str) (hdisj : KinsokuDisjoint config)
    (hchain : NoAdjacentProhibited config p)
    (hhead : headNotProhibited config p) :
    (∀ L ∈ wrapParagraph config maxWidth fontSize p,
      headNotProhibited config L) ∧
    List.Chain' (endRel config) (wrapParagraph config maxWidth fontSize p) := by
  have hinit : C2Inv config [] ⟨[], [], 0⟩ := by
    refine ⟨rfl, fun _ => rfl, by simp, ?_, by simp, by simp⟩
    intro c hc
    simp at hc
  have hinv := foldl_wrapStep_C2Inv config maxWidth fontSize hdisj p [] ⟨[], [], 0⟩
    (by simpa using hchain) (by simpa using hhead) hinit
  obtain ⟨-, -, hlinesHead, hcurHead, hchainLines, hpend⟩ := hinv
  constructor
  · simp only [wrapParagraph]
    intro L hL
    rcases List.mem_append.mp hL with hold | hflush
    · exact hlinesHead L hold
    · by_cases hc :
          (List.foldl (wrapStep config maxWidth fontSize) ⟨[], [], 0⟩ p).currentLine = []
      · rw [if_pos hc] at hflush
        simp at hflush
      · rw [if_neg hc] at hflush
        rw [List.mem_singleton] at hflush
        subst hflush
        exact hcurHead
  · simp only [wrapParagraph]
    by_cases hc :
        (List.foldl (wrapStep config maxWidth fontSize) ⟨[], [], 0⟩ p).currentLine = []
    · rw [if_pos hc]
      simpa using hchainLines
    · rw [if_neg hc]
      refine List.chain'_append.mpr ⟨hchainLines, List.chain'_singleton _, ?_⟩
      intro x hx y hy
      simp only [List.head?_cons, Option.mem_def, Option.some.injEq] at hy
      subst hy
      exact hpend x (Option.mem_def.mp hx)

/-- C2 (amended): for disjoint prohibition sets, provided each paragraph does
not start with a line-start-prohibited character and no two adjacent
characters of a paragraph are both prohibited: (a) no line emitted by
`wrapText` starts with a line-start-prohibited character, and (b) within each
paragraph a non-final emitted line ends with a line-end-prohibited character
only when the next emitted line's second character is line-start prohibited
(one character was detached to keep that character off the line start); the
paragraph's last line is exempt from the line-end rule. -/
theorem C2_amended (text : Str) (maxWidth fontSize : Nat) (config : AppConfig)
    (hdisj : KinsokuDisjoint config)
    (hparas : ∀ p ∈ splitOnNewline text,
      NoAdjacentProhibited config p ∧ headNotProhibited config p) :
    (∀ L ∈ wrapText text maxWidth fontSize config,
      headNotProhibited config L) ∧
    ∀ p ∈ splitOnNewline text,
      List.Chain' (endRel config) (wrapParagraph config maxWidth fontSize p) := by
  constructor
  · intro L hL
    rcases mem_wrapText.mp hL with ⟨p, hpmem, hp⟩
    by_cases hblank : trimStr p = []
    · simp only [paragraphLines, if_pos hblank, List.mem_singleton] at hp
      subst hp
      intro c hc
      simp at hc
    · simp only [paragraphLines, if_neg hblank] at hp
      exact (wrapParagraph_kinsoku config maxWidth fontSize p hdisj
        (hparas p hpmem).1 (hparas p hpmem).2).1 L hp
  · intro p hpmem
    exact (wrapParagraph_kinsoku config maxWidth fontSize p hdisj
      (hparas p hpmem).1 (hparas p hpmem).2).2

/-- Witness for C2 (amended) on the text `"あいうえおかきくけこ、さしすせそ"`:
the first emitted line's head `あ` is not line-start prohibited. -/
theorem C2_amended_witness :
    (0x3042 : Nat) ∉ DEFAULT_CONFIG.text.kinsoku.lineStartProhibited :=
  (C2_amended
    [0x3042, 0x3044, 0x3046, 0x3048, 0x304a, 0x304b, 0x304d, 0x304f, 0x3051,
     0x3053, 0x3001, 0x3055, 0x3057, 0x3059, 0x305b, 0x305d] 160 16
    DEFAULT_CONFIG (by unfold KinsokuDisjoint; decide)
    (by
      intro p hp
      have hsplit : splitOnNewline
          [0x3042, 0x3044, 0x3046, 0x3048, 0x304a, 0x304b, 0x304d, 0x304f,
           0x3051, 0x3053, 0x3001, 0x3055, 0x3057, 0x3059, 0x305b, 0x305d] =
          [[0x3042, 0x3044, 0x3046, 0x3048, 0x304a, 0x304b, 0x304d, 0x304f,
            0x3051, 0x3053, 0x3001, 0x3055, 0x3057, 0x3059, 0x305b, 0x305d]] := by
        decide
      rw [hsplit, List.mem_singleton] at hp
      subst hp
      constructor
      · unfold NoAdjacentProhibited
        simp only [prohibitedChar]
        rw [List.chain'_iff_get]
        decide
      · intro c hc
        simp only [List.head?_cons, Option.some.injEq] at hc
        subst hc
        decide)).1
    [0x3042, 0x3044, 0x3046, 0x3048, 0x304a, 0x304b, 0x304d, 0x304f, 0x3051]
    (by decide) 0x3042 rfl

end Quotto
